import Mathlib

/-!
Verification development for the Qwen API client (src/clients/qwen.rs).

The development shallowly embeds the pure computational content of the
client: the streaming frame parser of QwenClient::chat_stream, the request
composer QwenClient::build_request, and the error mapping of
QwenClient::chat.  Text is modelled as List Char (Rust String), raw bytes
as List Nat (Rust [u8]), and serde_json values as an inductive Json type
together with an executable JSON text parser that follows serde_json's
grammar (RFC 8259: no trailing commas, strict literals).
-/

set_option maxHeartbeats 1000000

/-- Newline character, the building block of the frame terminator. -/
def nlChar : Char := '\n'

/-- Test whether the head of a character list is a newline. -/
def headNl : List Char → Bool
  | [] => false
  | c :: _ => c = nlChar

/-- Whether a character list contains the two-character frame terminator
as a contiguous substring.  Models Rust str::find of the pattern returning
a hit somewhere in the text. -/
def hasTerm : List Char → Bool
  | [] => false
  | c :: cs => (c = nlChar && headNl cs) || hasTerm cs

/-- Substring containment test, modelling Rust str::contains with a
string pattern (line 299 of qwen.rs). -/
def containsSub (pat : List Char) : List Char → Bool
  | [] => pat.isPrefixOf []
  | c :: cs => pat.isPrefixOf (c :: cs) || containsSub pat cs

/-- Fuelled worker for the replacement of every non-overlapping leftmost
occurrence of a pattern.  Each step consumes at least one character and
one unit of fuel, so any fuel of at least the input length is adequate. -/
def replaceAllF (pat rep : List Char) : Nat → List Char → List Char
  | _, [] => []
  | 0, s => s
  | fuel + 1, c :: cs =>
    if pat ≠ [] ∧ pat.isPrefixOf (c :: cs) then
      rep ++ replaceAllF pat rep fuel ((c :: cs).drop pat.length)
    else
      c :: replaceAllF pat rep fuel cs

/-- Replacement of every non-overlapping leftmost occurrence of a pattern,
modelling Rust str::replace (line 302 of qwen.rs). -/
def replaceAll (pat rep s : List Char) : List Char :=
  replaceAllF pat rep s.length s

/-- Frame scanner of chat_stream (lines 291 to 311 of qwen.rs): repeatedly
find the first occurrence of the terminator, cut the text before it out as
a frame, and continue after the terminator; the leftover text that holds
no terminator is returned as the second component.  The first list
argument accumulates, in reverse, the characters scanned since the last
terminator. -/
def splitFramesAux : List Char → List Char → List (List Char) × List Char
  | acc, [] => ([], acc.reverse)
  | acc, c :: cs =>
    if c = nlChar ∧ headNl cs = true then
      match cs with
      | _ :: cs2 =>
        let r := splitFramesAux [] cs2
        (acc.reverse :: r.1, r.2)
      | [] => ([], (c :: acc).reverse)
    else
      splitFramesAux (c :: acc) cs

/-- Frame scanner started at offset zero, as chat_stream does on each
freshly extended buffer. -/
def splitFrames (s : List Char) : List (List Char) × List Char :=
  splitFramesAux [] s

/-- Two-step list induction principle matching the recursion pattern of
the frame scanner: the step case may use the tail and the tail's tail. -/
def twoStepInd (motive : List Char → Prop) (h0 : motive [])
    (h1 : ∀ c, motive [c])
    (h2 : ∀ c1 c2 cs, motive (c2 :: cs) → motive cs → motive (c1 :: c2 :: cs)) :
    ∀ s, motive s
  | [] => h0
  | [c] => h1 c
  | c1 :: c2 :: cs =>
    h2 c1 c2 cs (twoStepInd motive h0 h1 h2 (c2 :: cs)) (twoStepInd motive h0 h1 h2 cs)
termination_by s => s.length

/-- Replacement character produced by lossy UTF-8 decoding. -/
def replChar : Char := Char.ofNat 0xFFFD

/-- Whether a byte is a UTF-8 continuation byte. -/
def contOk (b : Nat) : Bool := 0x80 ≤ b && b ≤ 0xBF

/-- Allowed range of the second byte of a three-byte UTF-8 sequence,
depending on the leading byte (excludes overlong forms and surrogates). -/
def snd3Ok (b b1 : Nat) : Bool :=
  if b = 0xE0 then 0xA0 ≤ b1 && b1 ≤ 0xBF
  else if b = 0xED then 0x80 ≤ b1 && b1 ≤ 0x9F
  else contOk b1

/-- Allowed range of the second byte of a four-byte UTF-8 sequence,
depending on the leading byte. -/
def snd4Ok (b b1 : Nat) : Bool :=
  if b = 0xF0 then 0x90 ≤ b1 && b1 ≤ 0xBF
  else if b = 0xF4 then 0x80 ≤ b1 && b1 ≤ 0x8F
  else contOk b1

/-- Fuelled worker of lossy UTF-8 decoding: each maximal invalid
subsequence is replaced by one replacement character, following the
standard library's policy of consuming a valid prefix of a multi-byte
sequence up to the first offending byte. -/
def utf8LossyF : Nat → List Nat → List Char
  | _, [] => []
  | 0, _ => []
  | fuel + 1, b :: rest =>
    if b ≤ 0x7F then Char.ofNat b :: utf8LossyF fuel rest
    else if 0xC2 ≤ b ∧ b ≤ 0xDF then
      match rest with
      | [] => [replChar]
      | b1 :: rest1 =>
        if contOk b1 then
          Char.ofNat ((b - 0xC0) * 64 + (b1 - 0x80)) :: utf8LossyF fuel rest1
        else replChar :: utf8LossyF fuel rest
    else if 0xE0 ≤ b ∧ b ≤ 0xEF then
      match rest with
      | [] => [replChar]
      | b1 :: rest1 =>
        if snd3Ok b b1 then
          match rest1 with
          | [] => [replChar]
          | b2 :: rest2 =>
            if contOk b2 then
              Char.ofNat (((b - 0xE0) * 64 + (b1 - 0x80)) * 64 + (b2 - 0x80)) :: utf8LossyF fuel rest2
            else replChar :: utf8LossyF fuel rest1
        else replChar :: utf8LossyF fuel rest
    else if 0xF0 ≤ b ∧ b ≤ 0xF4 then
      match rest with
      | [] => [replChar]
      | b1 :: rest1 =>
        if snd4Ok b b1 then
          match rest1 with
          | [] => [replChar]
          | b2 :: rest2 =>
            if contOk b2 then
              match rest2 with
              | [] => [replChar]
              | b3 :: rest3 =>
                if contOk b3 then
                  Char.ofNat ((((b - 0xF0) * 64 + (b1 - 0x80)) * 64 + (b2 - 0x80)) * 64 + (b3 - 0x80))
                    :: utf8LossyF fuel rest3
                else replChar :: utf8LossyF fuel rest2
            else replChar :: utf8LossyF fuel rest1
        else replChar :: utf8LossyF fuel rest
    else replChar :: utf8LossyF fuel rest


/-- Lossy UTF-8 decoding of a byte chunk, modelling
String::from_utf8_lossy (line 289 of qwen.rs).  Every step of the worker
consumes at least one byte and exactly one unit of fuel, so fuel equal to
the length is adequate. -/
def utf8Lossy (bs : List Nat) : List Char :=
  utf8LossyF bs.length bs

/-- Model of serde_json::Value.  Objects are association lists of key and
value pairs; a number records its integer value together with a flag that
is true exactly when the literal had no fraction or exponent part. -/
inductive Json where
  | null : Json
  | bool : Bool → Json
  | num : Int → Bool → Json
  | str : List Char → Json
  | arr : List Json → Json
  | obj : List (List Char × Json) → Json
deriving Repr

/-- First-match lookup in a JSON object's field list, modelling
serde_json::Map lookup (maps never hold duplicate keys). -/
def jGet : List (List Char × Json) → List Char → Option Json
  | [], _ => none
  | (k1, v) :: rest, k => if k1 = k then some v else jGet rest k

/-- Lookup of a field of a JSON value, modelling serde_json::Value::get:
succeeds only on objects. -/
def jsonGet (j : Json) (k : List Char) : Option Json :=
  match j with
  | Json.obj fs => jGet fs k
  | _ => none

/-- Skip the JSON whitespace characters accepted by serde_json. -/
def skipWs : List Char → List Char
  | [] => []
  | c :: cs => if c = ' ' ∨ c = '\t' ∨ c = '\n' ∨ c = '\r' then skipWs cs else c :: cs

/-- Value of a hexadecimal digit character. -/
def hexVal (c : Char) : Option Nat :=
  if '0' ≤ c ∧ c ≤ '9' then some (c.toNat - '0'.toNat)
  else if 'a' ≤ c ∧ c ≤ 'f' then some (c.toNat - 'a'.toNat + 10)
  else if 'A' ≤ c ∧ c ≤ 'F' then some (c.toNat - 'A'.toNat + 10)
  else none

/-- Parse the remainder of a JSON string literal after its opening quote,
handling the escape sequences of RFC 8259 and rejecting raw control
characters, as serde_json does.  Basic-plane \u escapes are accepted;
surrogate halves are rejected. -/
def parseStringRest : Nat → List Char → Option (List Char × List Char)
  | 0, _ => none
  | _ + 1, [] => none
  | fuel + 1, c :: cs =>
    if c = '"' then some ([], cs)
    else if c = '\\' then
      match cs with
      | [] => none
      | e :: cs2 =>
        if e = '"' then (parseStringRest fuel cs2).map (fun p => ('"' :: p.1, p.2))
        else if e = '\\' then (parseStringRest fuel cs2).map (fun p => ('\\' :: p.1, p.2))
        else if e = '/' then (parseStringRest fuel cs2).map (fun p => ('/' :: p.1, p.2))
        else if e = 'b' then (parseStringRest fuel cs2).map (fun p => (Char.ofNat 8 :: p.1, p.2))
        else if e = 'f' then (parseStringRest fuel cs2).map (fun p => (Char.ofNat 12 :: p.1, p.2))
        else if e = 'n' then (parseStringRest fuel cs2).map (fun p => ('\n' :: p.1, p.2))
        else if e = 'r' then (parseStringRest fuel cs2).map (fun p => ('\r' :: p.1, p.2))
        else if e = 't' then (parseStringRest fuel cs2).map (fun p => ('\t' :: p.1, p.2))
        else if e = 'u' then
          match cs2 with
          | h1 :: h2 :: h3 :: h4 :: cs3 =>
            match hexVal h1, hexVal h2, hexVal h3, hexVal h4 with
            | some a, some b, some c3, some d =>
              let n := ((a * 16 + b) * 16 + c3) * 16 + d
              if 0xD800 ≤ n ∧ n ≤ 0xDFFF then none
              else (parseStringRest fuel cs3).map (fun p => (Char.ofNat n :: p.1, p.2))
            | _, _, _, _ => none
          | _ => none
        else none
    else if c.toNat < 0x20 then none
    else (parseStringRest fuel cs).map (fun p => (c :: p.1, p.2))

/-- Take the maximal run of decimal digits from the front of a list. -/
def digitsTake : List Char → List Char × List Char
  | [] => ([], [])
  | c :: cs => if c.isDigit then
      let p := digitsTake cs
      (c :: p.1, p.2)
    else ([], c :: cs)

/-- Numeric value of a list of decimal digits. -/
def digitsToNat (ds : List Char) : Nat :=
  ds.foldl (fun a c => a * 10 + (c.toNat - '0'.toNat)) 0

/-- Parse the integer part of a JSON number: a single zero, or a nonzero
digit followed by digits (leading zeros are rejected, as in serde_json). -/
def parseIntPart : List Char → Option (Nat × List Char)
  | [] => none
  | c :: cs =>
    if c = '0' then some (0, cs)
    else if c.isDigit then
      let p := digitsTake cs
      some (digitsToNat (c :: p.1), p.2)
    else none

/-- Parse an optional fraction part; returns whether one was present. -/
def parseFracPart : List Char → Option (Bool × List Char)
  | [] => some (false, [])
  | c :: cs =>
    if c = '.' then
      let p := digitsTake cs
      if p.1 = [] then none else some (true, p.2)
    else some (false, c :: cs)

/-- Parse an optional exponent part; returns whether one was present. -/
def parseExpPart : List Char → Option (Bool × List Char)
  | [] => some (false, [])
  | c :: cs =>
    if c = 'e' ∨ c = 'E' then
      let cs2 := match cs with
        | s :: r => if s = '+' ∨ s = '-' then r else s :: r
        | [] => []
      let p := digitsTake cs2
      if p.1 = [] then none else some (true, p.2)
    else some (false, c :: cs)

/-- Parse a JSON number token.  The result records the signed integer
value of the integer part and whether the literal was an exact integer. -/
def parseNumber (s : List Char) : Option (Json × List Char) :=
  let sgn : Bool × List Char := match s with
    | '-' :: cs => (true, cs)
    | _ => (false, s)
  match parseIntPart sgn.2 with
  | none => none
  | some (n, s2) =>
    match parseFracPart s2 with
    | none => none
    | some (f1, s3) =>
      match parseExpPart s3 with
      | none => none
      | some (f2, s4) =>
        let v : Int := if sgn.1 then -(n : Int) else (n : Int)
        some (Json.num v (!(f1 || f2)), s4)

mutual

/-- Parse one JSON value, following serde_json's grammar.  The fuel
argument bounds recursion depth; it is always instantiated with more fuel
than any input can consume. -/
def parseValue : Nat → List Char → Option (Json × List Char)
  | 0, _ => none
  | fuel + 1, s =>
    match skipWs s with
    | [] => none
    | c :: cs =>
      if c = 'n' then
        match cs with
        | 'u' :: 'l' :: 'l' :: r => some (Json.null, r)
        | _ => none
      else if c = 't' then
        match cs with
        | 'r' :: 'u' :: 'e' :: r => some (Json.bool true, r)
        | _ => none
      else if c = 'f' then
        match cs with
        | 'a' :: 'l' :: 's' :: 'e' :: r => some (Json.bool false, r)
        | _ => none
      else if c = '"' then
        (parseStringRest (cs.length + 1) cs).map (fun p => (Json.str p.1, p.2))
      else if c = '{' then parseObjBody fuel cs
      else if c = '[' then parseArrBody fuel cs
      else parseNumber (c :: cs)

/-- Parse the body of a JSON object after its opening brace. -/
def parseObjBody : Nat → List Char → Option (Json × List Char)
  | 0, _ => none
  | fuel + 1, s =>
    match skipWs s with
    | '}' :: r => some (Json.obj [], r)
    | rest =>
      match parseMember fuel rest with
      | some (kv, r1) => parseObjTail fuel r1 [kv]
      | none => none

/-- Parse a single key and value member of a JSON object. -/
def parseMember : Nat → List Char → Option ((List Char × Json) × List Char)
  | 0, _ => none
  | fuel + 1, s =>
    match skipWs s with
    | '"' :: cs =>
      match parseStringRest (cs.length + 1) cs with
      | some (key, r1) =>
        match skipWs r1 with
        | ':' :: r2 => (parseValue fuel r2).map (fun p => ((key, p.1), p.2))
        | _ => none
      | none => none
    | _ => none

/-- Parse the continuation of a JSON object after at least one member:
either a comma followed by a mandatory further member, or the closing
brace.  A trailing comma is therefore rejected, as in serde_json. -/
def parseObjTail : Nat → List Char → List (List Char × Json) → Option (Json × List Char)
  | 0, _, _ => none
  | fuel + 1, s, acc =>
    match skipWs s with
    | ',' :: r =>
      match parseMember fuel r with
      | some (kv, r2) => parseObjTail fuel r2 (acc ++ [kv])
      | none => none
    | '}' :: r => some (Json.obj acc, r)
    | _ => none

/-- Parse the body of a JSON array after its opening bracket. -/
def parseArrBody : Nat → List Char → Option (Json × List Char)
  | 0, _ => none
  | fuel + 1, s =>
    match skipWs s with
    | ']' :: r => some (Json.arr [], r)
    | rest =>
      match parseValue fuel rest with
      | some (v, r1) => parseArrTail fuel r1 [v]
      | none => none

/-- Parse the continuation of a JSON array after at least one element. -/
def parseArrTail : Nat → List Char → List Json → Option (Json × List Char)
  | 0, _, _ => none
  | fuel + 1, s, acc =>
    match skipWs s with
    | ',' :: r =>
      match parseValue fuel r with
      | some (v, r2) => parseArrTail fuel r2 (acc ++ [v])
      | none => none
    | ']' :: r => some (Json.arr acc, r)
    | _ => none

end

/-- Parse a complete JSON document, requiring only whitespace after the
value, modelling serde_json::from_str's end-of-input check. -/
def parseJsonText (s : List Char) : Option Json :=
  match parseValue (s.length + 1) s with
  | some (v, r) => if skipWs r = [] then some v else none
  | none => none

/-- Token usage counters of a response (struct Usage, qwen.rs lines 58
to 63); the u32 fields are modelled as integers with range checks in the
decoder. -/
structure Usage where
  prompt_tokens : Int
  completion_tokens : Int
  total_tokens : Int
deriving DecidableEq, Repr

/-- Chat message in the provider's vocabulary (struct QwenMessage,
qwen.rs lines 104 to 108). -/
structure QwenMessage where
  role : Option (List Char)
  content : Option (List Char)
deriving DecidableEq, Repr

/-- One choice of a streaming event (struct StreamChoice, qwen.rs lines
95 to 102). -/
structure StreamChoice where
  index : Int
  delta : QwenMessage
  finish_reason : Option (List Char)
  logprobs : Option (List Char)
deriving DecidableEq, Repr

/-- Streaming event (enum StreamEvent, qwen.rs lines 74 to 94): an
internally tagged enum whose tag field is named data, with a struct
variant tagged with the string data and a unit variant tagged NONE. -/
inductive StreamEvent where
  | Message : (id : List Char) → (object : List Char) → (created : Int) →
      (model : List Char) → (choices : List StreamChoice) →
      (usage : Option Usage) → (system_fingerprint : Option (List Char)) → StreamEvent
  | None : StreamEvent
deriving DecidableEq, Repr

/-- Decode a JSON value as a string, as serde does for a String field. -/
def decodeString : Json → Option (List Char)
  | Json.str s => some s
  | _ => none

/-- Decode a JSON value as an i64, rejecting non-integers and
out-of-range values. -/
def decodeI64 : Json → Option Int
  | Json.num n true => if -(2 ^ 63) ≤ n ∧ n < 2 ^ 63 then some n else none
  | _ => none

/-- Decode a JSON value as an i32. -/
def decodeI32 : Json → Option Int
  | Json.num n true => if -(2 ^ 31) ≤ n ∧ n < 2 ^ 31 then some n else none
  | _ => none

/-- Decode a JSON value as a u32. -/
def decodeU32 : Json → Option Int
  | Json.num n true => if 0 ≤ n ∧ n < 2 ^ 32 then some n else none
  | _ => none

/-- Decode a required struct field: the field must be present and its
value must decode. -/
def decodeReqField (fs : List (List Char × Json)) (k : List Char)
    (d : Json → Option α) : Option α :=
  (jGet fs k).bind d

/-- Decode an optional struct field, following serde's treatment of
Option fields: a missing field and an explicit null both give none, and
any other value must decode. -/
def decodeOptField (fs : List (List Char × Json)) (k : List Char)
    (d : Json → Option α) : Option (Option α) :=
  match jGet fs k with
  | Option.none => some Option.none
  | some Json.null => some Option.none
  | some v => (d v).map some

/-- Deserialize a QwenMessage from a JSON value. -/
def qwenMessageFromJson : Json → Option QwenMessage
  | Json.obj fs =>
    match decodeOptField fs "role".toList decodeString,
        decodeOptField fs "content".toList decodeString with
    | some r, some c => some ⟨r, c⟩
    | _, _ => Option.none
  | _ => Option.none

/-- Deserialize a Usage from a JSON value. -/
def usageFromJson : Json → Option Usage
  | Json.obj fs =>
    match decodeReqField fs "prompt_tokens".toList decodeU32,
        decodeReqField fs "completion_tokens".toList decodeU32,
        decodeReqField fs "total_tokens".toList decodeU32 with
    | some p, some c, some t => some ⟨p, c, t⟩
    | _, _, _ => Option.none
  | _ => Option.none

/-- Deserialize a StreamChoice from a JSON value. -/
def streamChoiceFromJson : Json → Option StreamChoice
  | Json.obj fs =>
    match decodeReqField fs "index".toList decodeI32,
        decodeReqField fs "delta".toList qwenMessageFromJson,
        decodeOptField fs "finish_reason".toList decodeString,
        decodeOptField fs "logprobs".toList decodeString with
    | some i, some d, some fr, some lp => some ⟨i, d, fr, lp⟩
    | _, _, _, _ => Option.none
  | _ => Option.none

/-- Deserialize the choices array of a streaming event. -/
def choicesFromJson : Json → Option (List StreamChoice)
  | Json.arr vs => vs.mapM streamChoiceFromJson
  | _ => Option.none

/-- Deserialize a StreamEvent from a JSON value, following serde's
internally tagged representation: the input must be an object, the tag is
read from its data field, and the remaining fields are decoded according
to the selected variant (unknown fields are ignored). -/
def streamEventFromJson : Json → Option StreamEvent
  | Json.obj fs =>
    match jGet fs "data".toList with
    | some (Json.str tag) =>
      if tag = "data".toList then
        match decodeReqField fs "id".toList decodeString,
            decodeReqField fs "object".toList decodeString,
            decodeReqField fs "created".toList decodeI64,
            decodeReqField fs "model".toList decodeString,
            decodeReqField fs "choices".toList choicesFromJson,
            decodeOptField fs "usage".toList usageFromJson,
            decodeOptField fs "system_fingerprint".toList decodeString with
        | some i, some o, some cr, some m, some ch, some u, some sf =>
          some (StreamEvent.Message i o cr m ch u sf)
        | _, _, _, _, _, _, _ => Option.none
      else if tag = "NONE".toList then some StreamEvent.None
      else Option.none
    | _ => Option.none
  | _ => Option.none

/-- Model of serde_json::from_str::<StreamEvent> (line 304 of qwen.rs):
parse the text as JSON and decode the tagged value. -/
def serdeStreamEventFromStr (s : List Char) : Option StreamEvent :=
  (parseJsonText s).bind streamEventFromJson

/-- Event frame marker checked by line 297 of qwen.rs. -/
def dataMark : List Char := "data: ".toList

/-- Done sentinel token checked by line 299 of qwen.rs. -/
def doneTok : List Char := "[DONE]".toList

/-- Pattern replaced by line 302 of qwen.rs. -/
def rewritePat : List Char := "data: \x7b".toList

/-- Replacement text inserted by line 302 of qwen.rs. -/
def rewriteRep : List Char := "\x7b\"data\": \"data\",".toList

/-- Terminal marker JSON substituted for a done-sentinel frame by line
300 of qwen.rs. -/
def doneJson : List Char := "\x7b\"data\": \"NONE\"\x7d".toList

/-- Rewriting step applied to a non-sentinel data frame (line 302 of
qwen.rs): every occurrence of the pattern is replaced, because Rust's
str::replace is a global replacement. -/
def rewriteFrame (line : List Char) : List Char :=
  replaceAll rewritePat rewriteRep line

/-- Processing of one extracted frame (lines 297 to 308 of qwen.rs):
frames without the data marker are dropped; a frame containing the done
sentinel is rewritten to the terminal marker JSON; any other data frame
goes through the prefix rewriting; the rewritten text is deserialized and
a failed deserialization silently drops the frame. -/
def processFrame (line : List Char) : Option StreamEvent :=
  if dataMark.isPrefixOf line then
    serdeStreamEventFromStr
      (if containsSub doneTok line then doneJson else rewriteFrame line)
  else Option.none

/-- One chunk-processing round of the chat_stream loop (lines 289 to 315
of qwen.rs): the decoded chunk is appended to the buffer, complete frames
are split off and processed in order, and the leftover text after the
last terminator becomes the new buffer. -/
def processChunk (buf : List Char) (t : List Char) : List StreamEvent × List Char :=
  let p := splitFrames (buf ++ t)
  (p.1.filterMap processFrame, p.2)

/-- Whole-stream run of the chat_stream parsing loop over a list of
already decoded text chunks, starting from a given buffer; returns the
events yielded, in order, and the final buffer (whose content is dropped
when the byte source ends, line 316 of qwen.rs). -/
def runAll : List Char → List (List Char) → List StreamEvent × List Char
  | buf, [] => ([], buf)
  | buf, t :: ts =>
    let p := processChunk buf t
    let q := runAll p.2 ts
    (p.1 ++ q.1, q.2)

/-- Event sequence produced by the chat_stream parsing loop on a byte
chunk sequence: each chunk is decoded independently with lossy UTF-8
replacement (line 289 of qwen.rs) and fed to the frame parser. -/
def chatStreamEvents (chunks : List (List Nat)) : List StreamEvent :=
  (runAll [] (chunks.map utf8Lossy)).1

/-- Single step of an equivalent character-at-a-time machine for the
frame scanner, used to reason about chunk boundaries: the state is the
list of emitted frames together with the reversed pending characters. -/
def runStep : List (List Char) × List Char → Char → List (List Char) × List Char
  | (fs, rbuf), c =>
    if c = nlChar ∧ headNl rbuf = true then (fs ++ [rbuf.tail.reverse], [])
    else (fs, c :: rbuf)

/-- Modelled from the spec: the conversational message role, a closed set
of participant kinds (crate::models::Role, whose source is outside this
repository snapshot). -/
inductive Role where
  | user : Role
  | assistant : Role
  | system : Role
deriving DecidableEq, Repr

/-- Modelled from the spec: a caller message, a role plus textual content
(crate::models::Message, whose source is outside this repository
snapshot). -/
structure Message where
  role : Role
  content : List Char
deriving DecidableEq, Repr

/-- Filter predicate of build_request (line 160 of qwen.rs): keep the
message unless its role is system. -/
def notSystem (m : Message) : Bool :=
  match m.role with
  | Role.system => false
  | _ => true

/-- Role mapping of build_request (lines 162 to 166 of qwen.rs).  The
system branch is Rust unreachable code, since the filter has removed
system messages; the value chosen for it here is immaterial. -/
def roleString : Role → List Char
  | Role.user => "user".toList
  | Role.assistant => "assistant".toList
  | Role.system => "system".toList

/-- Conversion of a caller message into the provider vocabulary (lines
161 to 168 of qwen.rs). -/
def toQwenMessage (m : Message) : QwenMessage :=
  { role := some (roleString m.role), content := some m.content }

/-- Filtered and mapped message list of build_request (lines 158 to 169
of qwen.rs). -/
def filteredMessages (msgs : List Message) : List QwenMessage :=
  (msgs.filter notSystem).map toQwenMessage

/-- Serialization of a QwenMessage by serde_json: both Option fields are
emitted, none becoming null. -/
def qwenMessageToJson (m : QwenMessage) : Json :=
  Json.obj [("role".toList, match m.role with
      | some s => Json.str s
      | Option.none => Json.null),
    ("content".toList, match m.content with
      | some s => Json.str s
      | Option.none => Json.null)]

/-- Outbound request body (struct QwenRequest, qwen.rs lines 65 to 72):
the messages and the stream flag are typed fields, every other field of
the merged JSON object lives in the flattened additional parameters. -/
structure QwenRequest where
  messages : List QwenMessage
  stream : Bool
  additional_params : Json
deriving Repr

/-- Removal of a key from a JSON object's field list, modelling
serde_json::Map::remove (lines 187 to 189 of qwen.rs). -/
def removeKey : List (List Char × Json) → List Char → List (List Char × Json)
  | [], _ => []
  | (k1, v) :: rest, k =>
    if k1 = k then removeKey rest k else (k1, v) :: removeKey rest k

/-- Insertion into a JSON object's field list, modelling
serde_json::Map::insert (line 193 of qwen.rs): an existing entry for the
key is replaced, otherwise the entry is appended. -/
def mapInsert : List (List Char × Json) → List Char → Json → List (List Char × Json)
  | [], k, v => [(k, v)]
  | (k1, v1) :: rest, k, v =>
    if k1 = k then (k, v) :: rest else (k1, v1) :: mapInsert rest k v

/-- Reserved-key removal applied to the configuration body before the
merge (lines 186 to 189 of qwen.rs). -/
def removeReserved (fs : List (List Char × Json)) : List (List Char × Json) :=
  removeKey (removeKey (removeKey fs "stream".toList) "messages".toList) "system".toList

/-- Base object built by the json macro of build_request (lines 175 to
180 of qwen.rs). -/
def baseFields (msgs : List Message) (stream : Bool) (body : Json) : List (List Char × Json) :=
  [("messages".toList, Json.arr ((filteredMessages msgs).map qwenMessageToJson)),
   ("stream".toList, Json.bool stream),
   ("model".toList, (jsonGet body "model".toList).getD (Json.str "qwen-plus".toList)),
   ("max_tokens".toList, (jsonGet body "max_tokens".toList).getD (Json.num 8192 true))]

/-- Merged request object of build_request (lines 182 to 197 of qwen.rs):
when the configuration body is an object, its fields minus the reserved
keys are inserted over the base object; otherwise the base object is left
alone. -/
def mergedFields (msgs : List Message) (stream : Bool) (body : Json) : List (List Char × Json) :=
  match body with
  | Json.obj bf =>
    (removeReserved bf).foldl (fun m p => mapInsert m p.1 p.2) (baseFields msgs stream body)
  | _ => baseFields msgs stream body

/-- Deserialization of the merged object back into a QwenRequest
(line 199 of qwen.rs): serde requires the typed messages and stream
fields and collects every other field into the flattened additional
parameters. -/
def qwenRequestFromValue (fields : List (List Char × Json)) : Option QwenRequest :=
  match jGet fields "messages".toList, jGet fields "stream".toList with
  | some (Json.arr ms), some (Json.bool b) =>
    match ms.mapM qwenMessageFromJson with
    | some qs =>
      some { messages := qs, stream := b,
             additional_params :=
               Json.obj (removeKey (removeKey fields "messages".toList) "stream".toList) }
    | Option.none => Option.none
  | _, _ => Option.none

/-- Request composer QwenClient::build_request (lines 151 to 205 of
qwen.rs).  When the merged object fails to deserialize, the fallback body
keeps the filtered messages, the stream flag, and the raw configuration
body as the additional parameters. -/
def build_request (msgs : List Message) (stream : Bool) (body : Json) : QwenRequest :=
  match qwenRequestFromValue (mergedFields msgs stream body) with
  | some r => r
  | Option.none =>
    { messages := filteredMessages msgs, stream := stream, additional_params := body }

/-- Error taxonomy of the client (crate::error::ApiError as used in
qwen.rs): only the constructors reachable from the embedded code are
modelled. -/
inductive ApiError where
  | Internal : (message : List Char) → ApiError
  | QwenError : (message : List Char) → (type_ : List Char) →
      (param : Option (List Char)) → (code : Option (List Char)) → ApiError
deriving DecidableEq, Repr

/-- Structured choice of a non-streaming response (struct Choice,
qwen.rs lines 51 to 56). -/
structure Choice where
  index : Int
  message : Message
  finish_reason : Option (List Char)
deriving DecidableEq, Repr

/-- Structured non-streaming response (struct QwenResponse, qwen.rs
lines 41 to 49). -/
structure QwenResponse where
  id : List Char
  object : List Char
  created : Int
  model : List Char
  choices : List Choice
  usage : Usage
deriving DecidableEq, Repr

/-- Success test of an HTTP status code, modelling
reqwest::StatusCode::is_success. -/
def statusIsSuccess (status : Nat) : Bool :=
  200 ≤ status && status < 300

/-- Response handling of QwenClient::chat after the request was delivered
(lines 226 to 247 of qwen.rs).  The body text is none when reading it
failed; the JSON decoding of the success path is passed in as the result
of the external reqwest json call, with its error text. -/
def chatHandleResponse (status : Nat) (bodyText : Option (List Char))
    (jsonResult : Except (List Char) QwenResponse) : Except ApiError QwenResponse :=
  if !statusIsSuccess status then
    Except.error (ApiError.QwenError (bodyText.getD "Unknown error".toList)
      "api_error".toList Option.none Option.none)
  else
    match jsonResult with
    | Except.ok r => Except.ok r
    | Except.error e =>
      Except.error (ApiError.QwenError ("Failed to parse response: ".toList ++ e)
        "parse_error".toList Option.none Option.none)

/-- Concatenation of frames with the terminators that separated them,
used to state the buffer decomposition invariant. -/
def joinTerm : List (List Char) → List Char
  | [] => []
  | f :: fs => f ++ nlChar :: nlChar :: joinTerm fs

/-- Whether the last character of a list is a newline. -/
def lastNl : List Char → Bool
  | [] => false
  | [c] => c = nlChar
  | _ :: cs => lastNl cs

/-- Well-formedness of a configuration body as a serde_json value: a
serde_json::Map cannot hold two entries with the same key. -/
def bodyKeysNodup : Json → Prop
  | Json.obj fs => (fs.map Prod.fst).Nodup
  | _ => True

/-- Byte encoding of the prefix of the chunking counterexample frame, up
to and excluding a two-byte UTF-8 scalar inside the model field. -/
def cexPre : List Nat :=
  "data: \x7b\"id\":\"1\",\"object\":\"o\",\"created\":1,\"model\":\"".toList.map Char.toNat

/-- Byte encoding of the suffix of the chunking counterexample frame,
after the two-byte UTF-8 scalar, including the frame terminator. -/
def cexSuf : List Nat := "\",\"choices\":[]\x7d\n\n".toList.map Char.toNat

/-- The chunking counterexample byte stream as a single chunk: a valid
data frame whose model field holds one two-byte UTF-8 scalar. -/
def cexWhole : List Nat := cexPre ++ [0xC3, 0xA9] ++ cexSuf

/-- First chunk of the split counterexample stream: it ends in the middle
of the two-byte UTF-8 sequence. -/
def cexA : List Nat := cexPre ++ [0xC3]

/-- Second chunk of the split counterexample stream: it begins with the
trailing half of the two-byte UTF-8 sequence. -/
def cexB : List Nat := 0xA9 :: cexSuf

/-- Payload remainder of the prefix-rewrite counterexample frame: the
JSON text after the leading rewrite pattern contains the rewrite pattern
itself inside a string value. -/
def c2Rest : List Char := "\"a\":\"data: \x7b\"\x7d".toList

/-- First frame of the error-recovery witness stream: a well-formed data
frame. -/
def c6f1 : List Char :=
  "data: \x7b\"id\":\"1\",\"object\":\"o\",\"created\":1,\"model\":\"m\",\"choices\":[]\x7d".toList

/-- Second frame of the error-recovery witness stream: a data frame whose
rewritten text is not valid JSON. -/
def c6f2 : List Char := "data: \x7b\x7d".toList

/-- Third frame of the error-recovery witness stream: the done-sentinel
frame. -/
def c6f3 : List Char := "data: [DONE]".toList

/-- Byte encoding of the error-recovery witness stream. -/
def c6bytes : List Nat :=
  (c6f1 ++ nlChar :: nlChar :: (c6f2 ++ nlChar :: nlChar :: (c6f3 ++ [nlChar, nlChar]))).map
    Char.toNat

theorem isPrefixOf_append_self (p s : List Char) : p.isPrefixOf (p ++ s) = true := by
  rw [List.isPrefixOf_iff_prefix]
  exact List.prefix_append p s

theorem replaceAllF_fuel_irrel (pat rep : List Char) :
    ∀ f1 : Nat, ∀ s : List Char, ∀ f2 : Nat, s.length ≤ f1 → s.length ≤ f2 →
      replaceAllF pat rep f1 s = replaceAllF pat rep f2 s := by
  intro f1
  induction f1 with
  | zero =>
    intro s f2 h1 _
    cases s with
    | nil => cases f2 <;> rfl
    | cons c cs => simp at h1
  | succ f ih =>
    intro s f2 h1 h2
    cases s with
    | nil => cases f2 <;> rfl
    | cons c cs =>
      cases f2 with
      | zero => simp at h2
      | succ g =>
        by_cases hc : pat ≠ [] ∧ pat.isPrefixOf (c :: cs)
        · have hp : 1 ≤ pat.length := by
            cases pat with
            | nil => exact absurd rfl hc.1
            | cons a as => simp
          simp only [replaceAllF, if_pos hc]
          congr 1
          apply ih
          · simp only [List.length_drop, List.length_cons]
            simp only [List.length_cons] at h1
            omega
          · simp only [List.length_drop, List.length_cons]
            simp only [List.length_cons] at h2
            omega
        · simp only [replaceAllF, if_neg hc]
          congr 1
          apply ih
          · simp only [List.length_cons] at h1
            omega
          · simp only [List.length_cons] at h2
            omega

theorem replaceAll_append_pat (pat rep rest : List Char) (h : pat ≠ []) :
    replaceAll pat rep (pat ++ rest) = rep ++ replaceAll pat rep rest := by
  cases pat with
  | nil => exact absurd rfl h
  | cons p ps =>
    have hpre : (p :: ps).isPrefixOf ((p :: ps) ++ rest) = true :=
      isPrefixOf_append_self (p :: ps) rest
    unfold replaceAll
    rw [List.cons_append]
    simp only [List.length_cons, List.length_append]
    simp only [replaceAllF]
    rw [if_pos ⟨h, by rw [← List.cons_append]; exact hpre⟩]
    congr 1
    rw [← List.cons_append, List.drop_left]
    apply replaceAllF_fuel_irrel
    · omega
    · exact le_refl _

theorem containsSub_cons_false {pat : List Char} {c : Char} {cs : List Char}
    (h : containsSub pat (c :: cs) = false) :
    pat.isPrefixOf (c :: cs) = false ∧ containsSub pat cs = false := by
  rw [containsSub] at h
  exact ⟨by revert h; cases pat.isPrefixOf (c :: cs) <;> simp,
    by revert h; cases containsSub pat cs <;> simp⟩

theorem replaceAllF_no_occurrence (pat rep : List Char) :
    ∀ fuel : Nat, ∀ s : List Char, s.length ≤ fuel → containsSub pat s = false →
      replaceAllF pat rep fuel s = s := by
  intro fuel
  induction fuel with
  | zero =>
    intro s h1 _
    cases s with
    | nil => rfl
    | cons c cs => simp at h1
  | succ f ih =>
    intro s h1 h2
    cases s with
    | nil => rfl
    | cons c cs =>
      obtain ⟨hp, hcs⟩ := containsSub_cons_false h2
      simp only [replaceAllF]
      rw [if_neg (fun hand => by rw [hp] at hand; exact Bool.false_ne_true hand.2)]
      simp only [List.length_cons] at h1
      rw [ih cs (by omega) hcs]

theorem replaceAll_no_occurrence (pat rep : List Char) :
    ∀ s, containsSub pat s = false → replaceAll pat rep s = s := by
  intro s h
  exact replaceAllF_no_occurrence pat rep s.length s (le_refl _) h

/-- Claim C2, counterexample: the rewriting step of chat_stream (line 302
of qwen.rs) does not leave the payload after the leading prefix
unmodified when the payload itself contains the substring matching the
rewrite pattern, because str::replace replaces every occurrence.  The
frame here is the rewrite pattern followed by the payload remainder
c2Rest, and the rewritten text differs from the discriminator followed by
the untouched remainder. -/
theorem c2_locality_counterexample :
    rewriteFrame (rewritePat ++ c2Rest) ≠ rewriteRep ++ c2Rest := by decide

/-- Claim C2, amended: the rewriting step replaces every occurrence of
the pattern consisting of the frame prefix followed by an opening brace;
when the payload remainder after that leading pattern does not itself
contain the pattern, only the leading pattern is changed into the JSON
discriminator and every character of the remainder reaches the
deserializer unmodified. -/
theorem c2_locality_amended (rest : List Char)
    (h : containsSub rewritePat rest = false) :
    rewriteFrame (rewritePat ++ rest) = rewriteRep ++ rest := by
  unfold rewriteFrame
  rw [replaceAll_append_pat _ _ _ (by decide)]
  rw [replaceAll_no_occurrence _ _ _ h]

/-- Claim C2, witness: a concrete payload remainder without an inner
occurrence of the rewrite pattern is passed through unmodified. -/
theorem c2_locality_amended_witness :
    rewriteFrame (rewritePat ++ "\"id\":\"1\"\x7d".toList)
      = rewriteRep ++ "\"id\":\"1\"\x7d".toList :=
  c2_locality_amended _ (by decide)

/-- Claim C5: every frame that begins with the data marker and contains
the done sentinel is rewritten to the terminal marker JSON, which
deserializes to the terminal event, so the frame yields exactly the
terminal-marker event and no data event. -/
theorem c5_done_sentinel (line : List Char)
    (h1 : dataMark.isPrefixOf line = true)
    (h2 : containsSub doneTok line = true) :
    processFrame line = some StreamEvent.None := by
  unfold processFrame
  rw [h1, h2]
  show serdeStreamEventFromStr doneJson = some StreamEvent.None
  decide

/-- Claim C5, witness: the canonical done frame yields the terminal
event. -/
theorem c5_done_sentinel_witness :
    processFrame "data: [DONE]".toList = some StreamEvent.None :=
  c5_done_sentinel _ (by decide) (by decide)

/-- Claim C9: a non-success HTTP status with readable body text makes
chat return the QwenError tagged api_error whose message is exactly the
body text (lines 226 to 237 of qwen.rs). -/
theorem c9_api_error_mapping (status : Nat) (t : List Char)
    (jr : Except (List Char) QwenResponse)
    (h : statusIsSuccess status = false) :
    chatHandleResponse status (some t) jr
      = Except.error (ApiError.QwenError t "api_error".toList Option.none Option.none) := by
  unfold chatHandleResponse
  rw [h]
  rfl

/-- Claim C9, witness: a 429 response whose body reads rate limited maps
to the api_error carrying exactly that text. -/
theorem c9_api_error_mapping_witness :
    chatHandleResponse 429 (some "rate limited".toList) (Except.error [])
      = Except.error (ApiError.QwenError "rate limited".toList "api_error".toList
          Option.none Option.none) :=
  c9_api_error_mapping 429 _ _ (by decide)

/-- Claim C10: the exact frame consisting of the data marker followed by
an empty JSON object is rewritten to an object with a trailing comma,
which is not valid JSON, so the frame is silently dropped and the parser
yields no event for it. -/
theorem c10_empty_object_frame_dropped :
    rewriteFrame "data: \x7b\x7d".toList = "\x7b\"data\": \"data\",\x7d".toList
    ∧ serdeStreamEventFromStr "\x7b\"data\": \"data\",\x7d".toList = Option.none
    ∧ (processChunk [] "data: \x7b\x7d\n\n".toList).1 = [] := by
  refine ⟨by decide, by decide, by decide⟩

theorem jGet_mapInsert_self (l : List (List Char × Json)) (k : List Char) (v : Json) :
    jGet (mapInsert l k v) k = some v := by
  induction l with
  | nil => simp [mapInsert, jGet]
  | cons p rest ih =>
    obtain ⟨k1, v1⟩ := p
    by_cases hk : k1 = k
    · simp [mapInsert, hk, jGet]
    · simp only [mapInsert, if_neg hk, jGet]
      exact ih

theorem jGet_mapInsert_ne (l : List (List Char × Json)) (k k2 : List Char) (v : Json)
    (h : k2 ≠ k) : jGet (mapInsert l k v) k2 = jGet l k2 := by
  induction l with
  | nil => simp [mapInsert, jGet, if_neg (Ne.symm h)]
  | cons p rest ih =>
    obtain ⟨k1, v1⟩ := p
    by_cases hk : k1 = k
    · subst hk
      simp only [mapInsert, if_pos rfl, jGet]
      rw [if_neg (Ne.symm h), if_neg (Ne.symm h)]
    · simp only [mapInsert, if_neg hk, jGet]
      by_cases hk2 : k1 = k2
      · rw [if_pos hk2, if_pos hk2]
      · rw [if_neg hk2, if_neg hk2, ih]

theorem jGet_removeKey_ne (l : List (List Char × Json)) (k k2 : List Char)
    (h : k2 ≠ k) : jGet (removeKey l k) k2 = jGet l k2 := by
  induction l with
  | nil => rfl
  | cons p rest ih =>
    obtain ⟨k1, v1⟩ := p
    by_cases hk : k1 = k
    · subst hk
      rw [removeKey, if_pos rfl, jGet, if_neg (Ne.symm h), ih]
    · rw [removeKey, if_neg hk, jGet, jGet]
      by_cases hk2 : k1 = k2
      · rw [if_pos hk2, if_pos hk2]
      · rw [if_neg hk2, if_neg hk2, ih]

theorem mem_removeKey (l : List (List Char × Json)) (k : List Char)
    (p : List Char × Json) (h : p ∈ removeKey l k) : p ∈ l ∧ p.1 ≠ k := by
  induction l with
  | nil => cases h
  | cons q rest ih =>
    obtain ⟨k1, v1⟩ := q
    by_cases hk : k1 = k
    · rw [removeKey, if_pos hk] at h
      obtain ⟨h1, h2⟩ := ih h
      exact ⟨List.mem_cons_of_mem _ h1, h2⟩
    · rw [removeKey, if_neg hk] at h
      rcases List.mem_cons.mp h with h1 | h1
      · subst h1
        exact ⟨List.mem_cons_self _ _, hk⟩
      · obtain ⟨h2, h3⟩ := ih h1
        exact ⟨List.mem_cons_of_mem _ h2, h3⟩

theorem removeKey_sublist (l : List (List Char × Json)) (k : List Char) :
    List.Sublist (removeKey l k) l := by
  induction l with
  | nil => exact List.Sublist.refl []
  | cons q rest ih =>
    obtain ⟨k1, v1⟩ := q
    by_cases hk : k1 = k
    · rw [removeKey, if_pos hk]
      exact ih.cons _
    · rw [removeKey, if_neg hk]
      exact ih.cons₂ _

theorem removeKey_eq_self_of_absent (l : List (List Char × Json)) (k : List Char)
    (h : ∀ p ∈ l, p.1 ≠ k) : removeKey l k = l := by
  induction l with
  | nil => rfl
  | cons q rest ih =>
    rw [removeKey, if_neg (h q (List.mem_cons_self _ _)), ih]
    intro p hp
    exact h p (List.mem_cons_of_mem _ hp)

theorem jGet_eq_some_mem {l : List (List Char × Json)} {k : List Char} {v : Json}
    (h : jGet l k = some v) : (k, v) ∈ l := by
  induction l with
  | nil => cases h
  | cons q rest ih =>
    obtain ⟨k1, v1⟩ := q
    by_cases hk : k1 = k
    · subst hk
      rw [jGet, if_pos rfl] at h
      cases h
      exact List.mem_cons_self _ _
    · rw [jGet, if_neg hk] at h
      exact List.mem_cons_of_mem _ (ih h)

theorem jGet_eq_none_absent {l : List (List Char × Json)} {k : List Char}
    (h : jGet l k = none) : ∀ p ∈ l, p.1 ≠ k := by
  induction l with
  | nil => intro p hp; cases hp
  | cons q rest ih =>
    obtain ⟨k1, v1⟩ := q
    intro p hp
    by_cases hk : k1 = k
    · rw [jGet, if_pos hk] at h
      cases h
    · rw [jGet, if_neg hk] at h
      rcases List.mem_cons.mp hp with h1 | h1
      · subst h1; exact hk
      · exact ih h p h1

theorem jGet_foldInsert_absent (l : List (List Char × Json))
    (base : List (List Char × Json)) (k : List Char)
    (h : ∀ p ∈ l, p.1 ≠ k) :
    jGet (l.foldl (fun m p => mapInsert m p.1 p.2) base) k = jGet base k := by
  induction l generalizing base with
  | nil => rfl
  | cons q rest ih =>
    rw [List.foldl_cons, ih _ (fun p hp => h p (List.mem_cons_of_mem _ hp)),
      jGet_mapInsert_ne _ _ _ _ (Ne.symm (h q (List.mem_cons_self _ _)))]

theorem jGet_foldInsert_mem (l : List (List Char × Json))
    (base : List (List Char × Json)) (k : List Char) (v : Json)
    (hnd : (l.map Prod.fst).Nodup) (hm : (k, v) ∈ l) :
    jGet (l.foldl (fun m p => mapInsert m p.1 p.2) base) k = some v := by
  induction l generalizing base with
  | nil => cases hm
  | cons q rest ih =>
    obtain ⟨k1, v1⟩ := q
    rw [List.map_cons, List.nodup_cons] at hnd
    rw [List.foldl_cons]
    rcases List.mem_cons.mp hm with h1 | h1
    · cases h1
      rw [jGet_foldInsert_absent]
      · exact jGet_mapInsert_self _ _ _
      · intro p hp heq
        exact hnd.1 (heq ▸ List.mem_map.mpr ⟨p, hp, rfl⟩)
    · exact ih _ hnd.2 h1

theorem qwenMessage_roundtrip (m : QwenMessage) :
    qwenMessageFromJson (qwenMessageToJson m) = some m := by
  obtain ⟨r, c⟩ := m
  cases r <;> cases c <;> rfl

theorem qwenMessages_roundtrip (qs : List QwenMessage) :
    (qs.map qwenMessageToJson).mapM qwenMessageFromJson = some qs := by
  induction qs with
  | nil => rfl
  | cons q rest ih =>
    rw [List.map_cons, List.mapM_cons, qwenMessage_roundtrip, ih]
    rfl

theorem mergedFields_messages (msgs : List Message) (st : Bool) (body : Json) :
    jGet (mergedFields msgs st body) "messages".toList
      = some (Json.arr ((filteredMessages msgs).map qwenMessageToJson)) := by
  cases body with
  | obj bf =>
    show jGet ((removeReserved bf).foldl (fun m p => mapInsert m p.1 p.2)
      (baseFields msgs st (Json.obj bf))) "messages".toList = _
    rw [jGet_foldInsert_absent]
    · rfl
    · intro p hp
      exact (mem_removeKey _ _ _ (mem_removeKey _ _ _ hp).1).2
  | null => rfl
  | bool b => rfl
  | num n f => rfl
  | str s => rfl
  | arr vs => rfl

theorem mergedFields_stream (msgs : List Message) (st : Bool) (body : Json) :
    jGet (mergedFields msgs st body) "stream".toList = some (Json.bool st) := by
  cases body with
  | obj bf =>
    show jGet ((removeReserved bf).foldl (fun m p => mapInsert m p.1 p.2)
      (baseFields msgs st (Json.obj bf))) "stream".toList = _
    rw [jGet_foldInsert_absent]
    · rfl
    · intro p hp
      exact (mem_removeKey _ _ _
        (mem_removeKey _ _ _ (mem_removeKey _ _ _ hp).1).1).2
  | null => rfl
  | bool b => rfl
  | num n f => rfl
  | str s => rfl
  | arr vs => rfl

theorem qwenRequestFromValue_merged (msgs : List Message) (st : Bool) (body : Json) :
    qwenRequestFromValue (mergedFields msgs st body)
      = some { messages := filteredMessages msgs, stream := st,
               additional_params := Json.obj (removeKey
                 (removeKey (mergedFields msgs st body) "messages".toList) "stream".toList) } := by
  simp only [qwenRequestFromValue, mergedFields_messages, mergedFields_stream,
    qwenMessages_roundtrip]

theorem build_request_spec (msgs : List Message) (st : Bool) (body : Json) :
    build_request msgs st body
      = { messages := filteredMessages msgs, stream := st,
          additional_params := Json.obj (removeKey
            (removeKey (mergedFields msgs st body) "messages".toList) "stream".toList) } := by
  unfold build_request
  rw [qwenRequestFromValue_merged]

/-- Claim C7: the request built by build_request contains exactly the
non-system caller messages, mapped to the provider vocabulary; every
remaining message's role string is user or assistant according to its
original role, and no system-role entry remains. -/
theorem c7_system_filtering (msgs : List Message) (st : Bool) (body : Json) :
    (build_request msgs st body).messages = (msgs.filter notSystem).map toQwenMessage
    ∧ (∀ q ∈ (build_request msgs st body).messages,
        q.role = some "user".toList ∨ q.role = some "assistant".toList)
    ∧ ∀ q ∈ (build_request msgs st body).messages, q.role ≠ some "system".toList := by
  rw [build_request_spec]
  refine ⟨rfl, ?_, ?_⟩
  · intro q hq
    have hq2 : q ∈ (msgs.filter notSystem).map toQwenMessage := hq
    obtain ⟨m, hm, rfl⟩ := List.mem_map.mp hq2
    have hm2 := (List.mem_filter.mp hm).2
    cases hr : m.role with
    | user =>
      left
      show some (roleString m.role) = _
      rw [hr]
      rfl
    | assistant =>
      right
      show some (roleString m.role) = _
      rw [hr]
      rfl
    | system =>
      rw [notSystem, hr] at hm2
      exact absurd hm2 (by simp)
  · intro q hq heq
    have hq2 : q ∈ (msgs.filter notSystem).map toQwenMessage := hq
    obtain ⟨m, hm, rfl⟩ := List.mem_map.mp hq2
    have hm2 := (List.mem_filter.mp hm).2
    have hrs : roleString m.role = "system".toList := by
      have hrole : (toQwenMessage m).role = some (roleString m.role) := rfl
      rw [hrole] at heq
      exact Option.some.inj heq
    cases hr : m.role with
    | user => rw [hr] at hrs; exact absurd hrs (by decide)
    | assistant => rw [hr] at hrs; exact absurd hrs (by decide)
    | system => rw [notSystem, hr] at hm2; exact absurd hm2 (by simp)

/-- Claim C3: a provider configuration that tries to set the reserved
keys stream, messages, or system has no effect on them: the composed
request keeps the caller-supplied stream flag and the filtered caller
messages, no system field reaches the additional parameters, and the
whole composed request is unchanged when the reserved keys are removed
from the configuration beforehand. -/
theorem c3_reserved_key_protection (msgs : List Message) (st : Bool)
    (bf : List (List Char × Json))
    (h : (jGet bf "stream".toList).isSome = true
      ∨ (jGet bf "messages".toList).isSome = true
      ∨ (jGet bf "system".toList).isSome = true) :
    (build_request msgs st (Json.obj bf)).stream = st
    ∧ (build_request msgs st (Json.obj bf)).messages = filteredMessages msgs
    ∧ jsonGet (build_request msgs st (Json.obj bf)).additional_params "system".toList
        = Option.none
    ∧ build_request msgs st (Json.obj bf)
        = build_request msgs st (Json.obj (removeReserved bf)) := by
  refine ⟨?_, ?_, ?_, ?_⟩
  · rw [build_request_spec]
  · rw [build_request_spec]
  · rw [build_request_spec]
    show jGet (removeKey (removeKey (mergedFields msgs st (Json.obj bf)) "messages".toList)
      "stream".toList) "system".toList = Option.none
    rw [jGet_removeKey_ne _ _ _ (by decide), jGet_removeKey_ne _ _ _ (by decide)]
    show jGet ((removeReserved bf).foldl (fun m p => mapInsert m p.1 p.2)
      (baseFields msgs st (Json.obj bf))) "system".toList = Option.none
    rw [jGet_foldInsert_absent]
    · rfl
    · intro p hp
      exact (mem_removeKey _ _ _ hp).2
  · have hbase : baseFields msgs st (Json.obj bf)
        = baseFields msgs st (Json.obj (removeReserved bf)) := by
      have hmodel : jGet (removeReserved bf) "model".toList = jGet bf "model".toList := by
        unfold removeReserved
        rw [jGet_removeKey_ne _ _ _ (by decide), jGet_removeKey_ne _ _ _ (by decide),
          jGet_removeKey_ne _ _ _ (by decide)]
      have hmax : jGet (removeReserved bf) "max_tokens".toList
          = jGet bf "max_tokens".toList := by
        unfold removeReserved
        rw [jGet_removeKey_ne _ _ _ (by decide), jGet_removeKey_ne _ _ _ (by decide),
          jGet_removeKey_ne _ _ _ (by decide)]
      unfold baseFields
      show [_, _, ("model".toList, (jGet bf "model".toList).getD _),
          ("max_tokens".toList, (jGet bf "max_tokens".toList).getD _)]
        = [_, _, ("model".toList, (jGet (removeReserved bf) "model".toList).getD _),
          ("max_tokens".toList, (jGet (removeReserved bf) "max_tokens".toList).getD _)]
      rw [hmodel, hmax]
    have hrr : removeReserved (removeReserved bf) = removeReserved bf := by
      have habs1 : ∀ p ∈ removeReserved bf, p.1 ≠ "stream".toList := fun p hp =>
        (mem_removeKey _ _ _ (mem_removeKey _ _ _ (mem_removeKey _ _ _ hp).1).1).2
      have habs2 : ∀ p ∈ removeReserved bf, p.1 ≠ "messages".toList := fun p hp =>
        (mem_removeKey _ _ _ (mem_removeKey _ _ _ hp).1).2
      have habs3 : ∀ p ∈ removeReserved bf, p.1 ≠ "system".toList := fun p hp =>
        (mem_removeKey _ _ _ hp).2
      show removeKey (removeKey (removeKey (removeReserved bf) "stream".toList)
        "messages".toList) "system".toList = removeReserved bf
      rw [removeKey_eq_self_of_absent _ _ habs1, removeKey_eq_self_of_absent _ _ habs2,
        removeKey_eq_self_of_absent _ _ habs3]
    have hmf : mergedFields msgs st (Json.obj bf)
        = mergedFields msgs st (Json.obj (removeReserved bf)) := by
      show (removeReserved bf).foldl (fun m p => mapInsert m p.1 p.2)
          (baseFields msgs st (Json.obj bf))
        = (removeReserved (removeReserved bf)).foldl (fun m p => mapInsert m p.1 p.2)
          (baseFields msgs st (Json.obj (removeReserved bf)))
      rw [hrr, hbase]
    rw [build_request_spec, build_request_spec, hmf]

/-- Claim C3, witness: a configuration setting all three reserved keys
leaves the composed request untouched. -/
theorem c3_reserved_key_protection_witness :
    (build_request [] true (Json.obj [("stream".toList, Json.bool false)])).stream = true
    ∧ (build_request [] true (Json.obj [("stream".toList, Json.bool false)])).messages
        = filteredMessages []
    ∧ jsonGet (build_request [] true
        (Json.obj [("stream".toList, Json.bool false)])).additional_params "system".toList
        = Option.none
    ∧ build_request [] true (Json.obj [("stream".toList, Json.bool false)])
        = build_request [] true
            (Json.obj (removeReserved [("stream".toList, Json.bool false)])) :=
  c3_reserved_key_protection [] true [("stream".toList, Json.bool false)]
    (Or.inl (by decide))

/-- Claim C8: the composed request's model field is the configuration's
model value when one is present and the fixed default qwen-plus
otherwise.  The hypothesis states that the configuration body does not
hold duplicate keys, which a serde_json map cannot. -/
theorem c8_model_selection (msgs : List Message) (st : Bool) (body : Json)
    (h : bodyKeysNodup body) :
    jsonGet (build_request msgs st body).additional_params "model".toList
      = some ((jsonGet body "model".toList).getD (Json.str "qwen-plus".toList)) := by
  rw [build_request_spec]
  show jGet (removeKey (removeKey (mergedFields msgs st body) "messages".toList)
    "stream".toList) "model".toList = _
  rw [jGet_removeKey_ne _ _ _ (by decide), jGet_removeKey_ne _ _ _ (by decide)]
  cases body with
  | obj bf =>
    have hnd : (bf.map Prod.fst).Nodup := h
    show jGet ((removeReserved bf).foldl (fun m p => mapInsert m p.1 p.2)
      (baseFields msgs st (Json.obj bf))) "model".toList = _
    cases hm : jGet bf "model".toList with
    | some v =>
      have h1 : jGet (removeReserved bf) "model".toList = some v := by
        unfold removeReserved
        rw [jGet_removeKey_ne _ _ _ (by decide), jGet_removeKey_ne _ _ _ (by decide),
          jGet_removeKey_ne _ _ _ (by decide)]
        exact hm
      have hsub : List.Sublist (removeReserved bf) bf := by
        unfold removeReserved
        exact (removeKey_sublist _ _).trans ((removeKey_sublist _ _).trans
          (removeKey_sublist _ _))
      have hnd2 : ((removeReserved bf).map Prod.fst).Nodup :=
        List.Nodup.sublist (List.Sublist.map Prod.fst hsub) hnd
      rw [jGet_foldInsert_mem _ _ _ _ hnd2 (jGet_eq_some_mem h1)]
      show _ = some ((jGet bf "model".toList).getD _)
      rw [hm]
      rfl
    | none =>
      rw [jGet_foldInsert_absent]
      · show some ((jGet bf "model".toList).getD _)
            = some ((jGet bf "model".toList).getD _)
        rfl
      · intro p hp heq
        exact jGet_eq_none_absent hm p
          (mem_removeKey _ _ _ (mem_removeKey _ _ _ (mem_removeKey _ _ _ hp).1).1).1 heq
  | null => rfl
  | bool b => rfl
  | num n f => rfl
  | str s => rfl
  | arr vs => rfl

/-- Claim C8, witness: a configuration with a model field yields that
model, and the model key reaches the composed request. -/
theorem c8_model_selection_witness :
    jsonGet (build_request [] false
        (Json.obj [("model".toList, Json.str "my-model".toList)])).additional_params
        "model".toList
      = some ((jsonGet (Json.obj [("model".toList, Json.str "my-model".toList)])
          "model".toList).getD (Json.str "qwen-plus".toList)) :=
  c8_model_selection [] false (Json.obj [("model".toList, Json.str "my-model".toList)])
    (by show (List.map Prod.fst [("model".toList, Json.str "my-model".toList)]).Nodup
        decide)

theorem runStep_emit (fs : List (List Char)) (rbuf : List Char) (c : Char)
    (h : c = nlChar ∧ headNl rbuf = true) :
    runStep (fs, rbuf) c = (fs ++ [rbuf.tail.reverse], []) := by
  simp [runStep, h]

theorem runStep_push (fs : List (List Char)) (rbuf : List Char) (c : Char)
    (h : ¬(c = nlChar ∧ headNl rbuf = true)) :
    runStep (fs, rbuf) c = (fs, c :: rbuf) := by
  simp only [runStep, if_neg h]

theorem aux_nil (acc : List Char) : splitFramesAux acc [] = ([], acc.reverse) :=
  splitFramesAux.eq_1 acc

theorem aux_singleton (acc : List Char) (c : Char) :
    splitFramesAux acc [c] = ([], (c :: acc).reverse) := by
  rw [splitFramesAux.eq_3, if_neg (by simp [headNl]), splitFramesAux.eq_1]

theorem aux_cons_match (acc : List Char) (c d : Char) (cs : List Char)
    (h : c = nlChar ∧ d = nlChar) :
    splitFramesAux acc (c :: d :: cs)
      = (acc.reverse :: (splitFramesAux [] cs).1, (splitFramesAux [] cs).2) := by
  rw [splitFramesAux.eq_2]
  rw [if_pos ⟨h.1, by simp [headNl, h.2]⟩]

theorem aux_cons_push (acc : List Char) (c d : Char) (cs : List Char)
    (h : ¬(c = nlChar ∧ d = nlChar)) :
    splitFramesAux acc (c :: d :: cs) = splitFramesAux (c :: acc) (d :: cs) := by
  rw [splitFramesAux.eq_2]
  rw [if_neg (fun hand => h ⟨hand.1, by simpa [headNl] using hand.2⟩)]

theorem foldl_runStep_eq_aux :
    ∀ s : List Char, ∀ acc : List Char, ∀ fs : List (List Char),
    (headNl acc = true → headNl s = false) →
    s.foldl runStep (fs, acc)
      = (fs ++ (splitFramesAux acc s).1, (splitFramesAux acc s).2.reverse) := by
  intro s
  induction s using twoStepInd with
  | h0 =>
    intro acc fs _
    simp [aux_nil]
  | h1 c =>
    intro acc fs hyp
    have hcond : ¬(c = nlChar ∧ headNl acc = true) := by
      intro hand
      have hh := hyp hand.2
      simp [headNl, hand.1] at hh
    rw [List.foldl_cons, List.foldl_nil, runStep_push _ _ _ hcond, aux_singleton]
    simp
  | h2 c1 c2 cs ih1 ih2 =>
    intro acc fs hyp
    have hcond1 : ¬(c1 = nlChar ∧ headNl acc = true) := by
      intro hand
      have hh := hyp hand.2
      simp [headNl, hand.1] at hh
    rw [List.foldl_cons, runStep_push _ _ _ hcond1]
    by_cases hc : c1 = nlChar ∧ c2 = nlChar
    · rw [List.foldl_cons, runStep_emit _ _ _ ⟨hc.2, by simp [headNl, hc.1]⟩]
      have ht : (c1 :: acc).tail.reverse = acc.reverse := rfl
      rw [ht]
      rw [ih2 [] (fs ++ [acc.reverse]) (by simp [headNl])]
      rw [aux_cons_match _ _ _ _ hc]
      simp
    · rw [ih1 (c1 :: acc) fs (fun hb => by
        have hc1 : c1 = nlChar := by simpa [headNl] using hb
        have hc2 : ¬ c2 = nlChar := fun hh => hc ⟨hc1, hh⟩
        simpa [headNl] using hc2)]
      rw [aux_cons_push _ _ _ _ hc]

theorem foldl_runStep_frames (s : List Char) :
    ∀ fs : List (List Char), ∀ b : List Char,
    s.foldl runStep (fs, b)
      = (fs ++ (s.foldl runStep ([], b)).1, (s.foldl runStep ([], b)).2) := by
  induction s with
  | nil => intro fs b; simp
  | cons c s2 ih =>
    intro fs b
    by_cases hc : c = nlChar ∧ headNl b = true
    · rw [List.foldl_cons, List.foldl_cons, runStep_emit _ _ _ hc, runStep_emit _ _ _ hc]
      rw [ih (fs ++ [b.tail.reverse]) [], List.nil_append, ih [b.tail.reverse] []]
      simp only [List.append_assoc]
    · rw [List.foldl_cons, List.foldl_cons, runStep_push _ _ _ hc, runStep_push _ _ _ hc]
      rw [ih fs (c :: b), ih [] (c :: b)]

theorem hasTerm_append_nn (x y : List Char) :
    hasTerm (x ++ nlChar :: nlChar :: y) = true := by
  induction x with
  | nil => simp [hasTerm, headNl]
  | cons c x2 ih => simp [hasTerm, ih]

theorem foldl_runStep_noTerm (r : List Char) :
    ∀ fs : List (List Char), ∀ b : List Char,
    hasTerm (b.reverse ++ r) = false →
    r.foldl runStep (fs, b) = (fs, r.reverse ++ b) := by
  induction r with
  | nil => intro fs b _; simp
  | cons c r2 ih =>
    intro fs b h
    have hcond : ¬(c = nlChar ∧ headNl b = true) := by
      intro hand
      cases hb : b with
      | nil => rw [hb] at hand; simp [headNl] at hand
      | cons b0 bt =>
        have hb0 : b0 = nlChar := by
          have := hand.2
          rw [hb] at this
          simpa [headNl] using this
        rw [hb, hb0, hand.1] at h
        have : (nlChar :: bt).reverse ++ nlChar :: r2
            = bt.reverse ++ nlChar :: nlChar :: r2 := by
          simp
        rw [this, hasTerm_append_nn] at h
        exact Bool.noConfusion h
    rw [List.foldl_cons, runStep_push _ _ _ hcond]
    rw [ih fs (c :: b) (by
      have heq : (c :: b).reverse ++ r2 = b.reverse ++ c :: r2 := by simp
      rw [heq]
      exact h)]
    simp

theorem hasTerm_snoc (x : List Char) (c : Char) :
    hasTerm (x ++ [c]) = (hasTerm x || (lastNl x && decide (c = nlChar))) := by
  induction x using twoStepInd with
  | h0 => simp [hasTerm, headNl, lastNl]
  | h1 d => simp [hasTerm, headNl, lastNl]
  | h2 d1 d2 xs ih1 ih2 =>
    show hasTerm (d1 :: (d2 :: xs ++ [c])) = _
    rw [hasTerm, ih1]
    rw [show hasTerm (d1 :: d2 :: xs)
        = (decide (d1 = nlChar) && headNl (d2 :: xs) || hasTerm (d2 :: xs)) from by
      rw [hasTerm]]
    rw [show headNl ((d2 :: xs) ++ [c]) = headNl (d2 :: xs) from rfl,
      show lastNl (d1 :: d2 :: xs) = lastNl (d2 :: xs) from rfl]
    rw [Bool.or_assoc]

theorem lastNl_snoc (x : List Char) (c : Char) :
    lastNl (x ++ [c]) = decide (c = nlChar) := by
  induction x using twoStepInd with
  | h0 => simp [lastNl]
  | h1 d => simp [lastNl]
  | h2 d1 d2 xs ih1 ih2 =>
    show lastNl (d1 :: (d2 :: xs ++ [c])) = _
    rw [show lastNl (d1 :: (d2 :: xs ++ [c])) = lastNl (d2 :: xs ++ [c]) from rfl]
    exact ih1

theorem lastNl_reverse (b : List Char) : lastNl b.reverse = headNl b := by
  cases b with
  | nil => rfl
  | cons h t =>
    show lastNl ((h :: t).reverse) = _
    rw [List.reverse_cons, lastNl_snoc]
    rfl

theorem foldl_runStep_rem_noTerm (s : List Char) :
    ∀ fs : List (List Char), ∀ b : List Char,
    hasTerm b.reverse = false →
    hasTerm ((s.foldl runStep (fs, b)).2).reverse = false := by
  induction s with
  | nil => intro fs b h; exact h
  | cons c s2 ih =>
    intro fs b h
    by_cases hc : c = nlChar ∧ headNl b = true
    · rw [List.foldl_cons, runStep_emit _ _ _ hc]
      exact ih _ [] rfl
    · rw [List.foldl_cons, runStep_push _ _ _ hc]
      apply ih
      rw [List.reverse_cons, hasTerm_snoc, h, lastNl_reverse]
      cases hh : headNl b with
      | false => simp
      | true =>
        have : ¬ c = nlChar := fun hcc => hc ⟨hcc, hh⟩
        simp [this]

theorem splitFrames_machine (s : List Char) :
    splitFrames s = ((s.foldl runStep ([], [])).1, (s.foldl runStep ([], [])).2.reverse) := by
  rw [foldl_runStep_eq_aux s [] [] (by simp [headNl])]
  simp [splitFrames]

theorem hasTerm_splitFrames_snd (s : List Char) :
    hasTerm (splitFrames s).2 = false := by
  rw [splitFrames_machine]
  exact foldl_runStep_rem_noTerm s [] [] rfl

theorem noTerm_splitFrames (s : List Char) (h : hasTerm s = false) :
    splitFrames s = ([], s) := by
  rw [splitFrames_machine, foldl_runStep_noTerm s [] [] (by simpa using h)]
  simp

theorem joinTerm_decomp :
    ∀ s : List Char, ∀ acc : List Char,
    joinTerm (splitFramesAux acc s).1 ++ (splitFramesAux acc s).2 = acc.reverse ++ s := by
  intro s
  induction s using twoStepInd with
  | h0 => intro acc; simp [aux_nil, joinTerm]
  | h1 c => intro acc; simp [aux_singleton, joinTerm]
  | h2 c1 c2 cs ih1 ih2 =>
    intro acc
    by_cases hc : c1 = nlChar ∧ c2 = nlChar
    · rw [aux_cons_match _ _ _ _ hc]
      show (acc.reverse ++ nlChar :: nlChar :: joinTerm (splitFramesAux [] cs).1)
          ++ (splitFramesAux [] cs).2 = _
      rw [List.append_assoc, List.cons_append, List.cons_append, ih2 []]
      rw [hc.1, hc.2]
      simp
    · rw [aux_cons_push _ _ _ _ hc, ih1 (c1 :: acc)]
      simp

/-- Claim C4: after a chunk is processed, the retained buffer holds no
frame terminator; the accumulated text decomposes as the extracted frames,
each followed by a terminator, and then exactly the retained buffer (so
the buffer is precisely the text after the last terminator found); and
when the accumulated text holds no terminator at all, the buffer is the
whole accumulated text. -/
theorem c4_buffer_invariant (buf t : List Char) :
    hasTerm (processChunk buf t).2 = false
    ∧ joinTerm (splitFrames (buf ++ t)).1 ++ (processChunk buf t).2 = buf ++ t
    ∧ (hasTerm (buf ++ t) = false → (processChunk buf t).2 = buf ++ t) := by
  refine ⟨?_, ?_, ?_⟩
  · exact hasTerm_splitFrames_snd (buf ++ t)
  · have h := joinTerm_decomp (buf ++ t) []
    simpa [splitFrames] using h
  · intro h
    show (splitFrames (buf ++ t)).2 = buf ++ t
    rw [noTerm_splitFrames _ h]

/-- Claim C4, witness: a concrete chunk with one terminator and trailing
bytes retains exactly the trailing bytes. -/
theorem c4_buffer_invariant_witness :
    hasTerm (processChunk "x".toList "y\n\nz".toList).2 = false
    ∧ joinTerm (splitFrames ("x".toList ++ "y\n\nz".toList)).1
        ++ (processChunk "x".toList "y\n\nz".toList).2 = "x".toList ++ "y\n\nz".toList
    ∧ (hasTerm ("x".toList ++ "y\n\nz".toList) = false →
        (processChunk "x".toList "y\n\nz".toList).2 = "x".toList ++ "y\n\nz".toList) :=
  c4_buffer_invariant "x".toList "y\n\nz".toList

theorem runAll_join :
    ∀ ts : List (List Char), ∀ buf : List Char, hasTerm buf = false →
    runAll buf ts
      = ((ts.flatten.foldl runStep ([], buf.reverse)).1.filterMap processFrame,
         ((ts.flatten.foldl runStep ([], buf.reverse)).2).reverse) := by
  intro ts
  induction ts with
  | nil =>
    intro buf h
    simp [runAll]
  | cons t ts2 ih =>
    intro buf h
    have hsplit : splitFrames (buf ++ t)
        = ((t.foldl runStep ([], buf.reverse)).1,
           (t.foldl runStep ([], buf.reverse)).2.reverse) := by
      rw [splitFrames_machine, List.foldl_append]
      rw [foldl_runStep_noTerm buf [] [] (by simpa using h)]
      rw [List.append_nil]
    have hP : processChunk buf t
        = ((t.foldl runStep ([], buf.reverse)).1.filterMap processFrame,
           (t.foldl runStep ([], buf.reverse)).2.reverse) := by
      unfold processChunk
      rw [hsplit]
    have hb2 : hasTerm ((t.foldl runStep ([], buf.reverse)).2).reverse = false := by
      apply foldl_runStep_rem_noTerm
      rw [List.reverse_reverse]
      exact h
    have hF := foldl_runStep_frames ts2.flatten
      (t.foldl runStep ([], buf.reverse)).1 (t.foldl runStep ([], buf.reverse)).2
    rw [runAll]
    rw [hP]
    rw [ih _ hb2]
    rw [List.reverse_reverse]
    rw [show (t :: ts2).flatten = t ++ ts2.flatten from rfl]
    rw [List.foldl_append]
    rw [show ts2.flatten.foldl runStep (t.foldl runStep ([], buf.reverse))
        = ((t.foldl runStep ([], buf.reverse)).1
            ++ (ts2.flatten.foldl runStep ([], (t.foldl runStep ([], buf.reverse)).2)).1,
           (ts2.flatten.foldl runStep ([], (t.foldl runStep ([], buf.reverse)).2)).2) from hF]
    rw [List.filterMap_append]

theorem runAll_chunking (ts : List (List Char)) :
    (runAll [] ts).1 = (runAll [] [ts.flatten]).1 := by
  rw [runAll_join ts [] rfl, runAll_join [ts.flatten] [] rfl]
  simp

/-- Claim C1, counterexample: the byte stream cexWhole holds one valid
data frame whose model field is a two-byte UTF-8 scalar; fed as a single
chunk it yields one event with that scalar, while the split cexA and cexB,
which cut the scalar in two, yield an event whose model field holds two
replacement characters, because each chunk is decoded independently with
lossy replacement.  The event sequences differ, refuting chunking
invariance for arbitrary byte streams. -/
theorem c1_chunking_counterexample :
    chatStreamEvents [cexA, cexB] ≠ chatStreamEvents [cexWhole] := by decide

/-- Claim C1, amended: chunking invariance of the event stream parser
holds for every finite byte stream and every chunking whose per-chunk
lossy UTF-8 decoding agrees with the whole-stream decoding; in particular
for any split that does not cut a multi-byte UTF-8 sequence across a
chunk boundary. -/
theorem c1_chunking_invariance_utf8_aligned (chunks : List (List Nat))
    (h : (chunks.map utf8Lossy).flatten = utf8Lossy chunks.flatten) :
    chatStreamEvents chunks = chatStreamEvents [chunks.flatten] := by
  unfold chatStreamEvents
  rw [runAll_chunking (chunks.map utf8Lossy), h]
  rfl

/-- Claim C1, witness: an ASCII done frame split in two chunks yields the
same single terminal event as the unsplit stream. -/
theorem c1_chunking_invariance_witness :
    (([("data: [DONE]\n".toList.map Char.toNat), ("\n".toList.map Char.toNat)].map
        utf8Lossy).flatten
      = utf8Lossy ([("data: [DONE]\n".toList.map Char.toNat),
          ("\n".toList.map Char.toNat)].flatten))
    ∧ chatStreamEvents [("data: [DONE]\n".toList.map Char.toNat),
          ("\n".toList.map Char.toNat)]
        = chatStreamEvents [[("data: [DONE]\n".toList.map Char.toNat),
            ("\n".toList.map Char.toNat)].flatten] :=
  ⟨by decide, c1_chunking_invariance_utf8_aligned _ (by decide)⟩

theorem frame_extract :
    ∀ f : List Char, hasTerm (f ++ [nlChar]) = false →
    ∀ acc rest : List Char,
    splitFramesAux acc (f ++ nlChar :: nlChar :: rest)
      = ((acc.reverse ++ f) :: (splitFramesAux [] rest).1, (splitFramesAux [] rest).2) := by
  intro f
  induction f using twoStepInd with
  | h0 =>
    intro _ acc rest
    rw [List.nil_append, aux_cons_match _ _ _ _ ⟨rfl, rfl⟩]
    simp
  | h1 c =>
    intro hyp acc rest
    have hc : ¬ c = nlChar := by
      intro hcc
      simp [hasTerm, headNl, hcc] at hyp
    rw [List.cons_append, List.nil_append]
    rw [aux_cons_push _ _ _ _ (fun hand => hc hand.1)]
    rw [aux_cons_match _ _ _ _ ⟨rfl, rfl⟩]
    simp
  | h2 c1 c2 cs ih1 ih2 =>
    intro hyp acc rest
    have hne : ¬(c1 = nlChar ∧ c2 = nlChar) := by
      intro hand
      rw [show (c1 :: c2 :: cs) ++ [nlChar] = c1 :: c2 :: (cs ++ [nlChar]) from rfl] at hyp
      rw [hasTerm] at hyp
      simp [headNl, hand.1, hand.2] at hyp
    have htail : hasTerm ((c2 :: cs) ++ [nlChar]) = false := by
      rw [show (c1 :: c2 :: cs) ++ [nlChar] = c1 :: ((c2 :: cs) ++ [nlChar]) from rfl] at hyp
      rw [hasTerm] at hyp
      exact (Bool.or_eq_false_iff.mp hyp).2
    rw [show (c1 :: c2 :: cs) ++ nlChar :: nlChar :: rest
        = c1 :: ((c2 :: cs) ++ nlChar :: nlChar :: rest) from rfl]
    rw [show (c2 :: cs) ++ nlChar :: nlChar :: rest
        = c2 :: (cs ++ nlChar :: nlChar :: rest) from rfl]
    rw [aux_cons_push _ _ _ _ hne]
    rw [show c2 :: (cs ++ nlChar :: nlChar :: rest)
        = (c2 :: cs) ++ nlChar :: nlChar :: rest from rfl]
    rw [ih1 htail (c1 :: acc) rest]
    simp

/-- Claim C6: a byte stream holding a well-formed data frame, then a
frame the deserializer rejects, then another well-formed frame, yields
exactly the two events of the well-formed frames, in stream order; the
malformed frame produces no event and does not terminate the stream.  The
frames may not contain a terminator or end in a newline, which is what
makes them the frames of the stream. -/
theorem c6_error_recovery (bs : List Nat) (f1 f2 f3 : List Char) (e1 e3 : StreamEvent)
    (hdec : utf8Lossy bs
      = f1 ++ nlChar :: nlChar :: (f2 ++ nlChar :: nlChar :: (f3 ++ [nlChar, nlChar])))
    (h1 : processFrame f1 = some e1) (h2 : processFrame f2 = Option.none)
    (h3 : processFrame f3 = some e3)
    (n1 : hasTerm (f1 ++ [nlChar]) = false) (n2 : hasTerm (f2 ++ [nlChar]) = false)
    (n3 : hasTerm (f3 ++ [nlChar]) = false) :
    chatStreamEvents [bs] = [e1, e3] := by
  unfold chatStreamEvents
  rw [show [bs].map utf8Lossy = [utf8Lossy bs] from rfl]
  rw [runAll]
  rw [show runAll (processChunk [] (utf8Lossy bs)).2 [] = ([], (processChunk [] (utf8Lossy bs)).2) from rfl]
  show (processChunk [] (utf8Lossy bs)).1 ++ [] = [e1, e3]
  rw [List.append_nil]
  unfold processChunk
  rw [List.nil_append, hdec]
  show ((splitFramesAux [] (f1 ++ nlChar :: nlChar ::
    (f2 ++ nlChar :: nlChar :: (f3 ++ [nlChar, nlChar])))).1).filterMap processFrame = _
  rw [frame_extract f1 n1 [] _]
  rw [frame_extract f2 n2 [] _]
  rw [show f3 ++ [nlChar, nlChar] = f3 ++ nlChar :: nlChar :: ([] : List Char) from rfl]
  rw [frame_extract f3 n3 [] []]
  rw [aux_nil]
  simp [List.filterMap, h1, h2, h3]

/-- Claim C6, witness: a concrete stream of a valid data frame, the
empty-object frame whose rewriting is invalid JSON, and the done frame
yields exactly the data event and the terminal event. -/
theorem c6_error_recovery_witness :
    chatStreamEvents [c6bytes]
      = [StreamEvent.Message "1".toList "o".toList 1 "m".toList [] Option.none Option.none,
         StreamEvent.None] :=
  c6_error_recovery c6bytes c6f1 c6f2 c6f3 _ _ (by decide) (by decide) (by decide)
    (by decide) (by decide) (by decide) (by decide)
